import Mathlib

/-!
# Tagged machine words of SWI-Prolog (`src/pl-data.h`)

A shallow embedding of the word-encoding macros of `pl-data.h`.

* A `word` (`unsigned long`) of `W` bits is a natural number below `2 ^ W`;
  every operation that can overflow is reduced `% 2 ^ W` explicitly.
* A `long` is an `Int`; the casts `(long)(w)` and `(word)(n)` are the
  two's-complement readings `toLong` and `toWord`.
* Addresses (`Word`, a pointer to `word`) are the numeric value of the
  pointer.  The store is a function from addresses to words.
* `base_addresses[]` and the functor table are declared outside this header;
  they are parameters of the definitions that read them.
-/

namespace PlData

/-! ## Machine arithmetic -/

/-- The value of `sizeof(word)` (and of `sizeof(long)`) for a word of `W` bits. -/
def sizeofWord (W : Nat) : Nat := W / 8

/-- The cast `(word)(n)` of a signed value to a `W`-bit unsigned word. -/
def toWord (W : Nat) (n : Int) : Nat := (n % ((2 ^ W : Nat) : Int)).toNat

/-- The cast `(long)(w)`: the two's-complement reading of a `W`-bit word. -/
def toLong (W : Nat) (w : Nat) : Int :=
  if w % 2 ^ W < 2 ^ (W - 1) then ((w % 2 ^ W : Nat) : Int)
  else ((w % 2 ^ W : Nat) : Int) - ((2 ^ W : Nat) : Int)

/-- The complement `~m` of a mask, converted to a `W`-bit word. -/
def wnot (W : Nat) (m : Nat) : Nat := 2 ^ W - 1 - m

/-- The left shift `w << k` on a `W`-bit word. -/
def wshl (W : Nat) (w k : Nat) : Nat := (w <<< k) % 2 ^ W

/-- The subtraction `a - b` on `W`-bit words. -/
def wsub (W : Nat) (a b : Nat) : Nat := toWord W ((a : Int) - (b : Int))

/-! ## Constants -/

def LMASK_BITS : Nat := 7

def TAG_MASK : Nat := 0x00000007
def TAG_VAR : Nat := 0x00000000
def TAG_ATTVAR : Nat := 0x00000001
def TAG_FLOAT : Nat := 0x00000002
def TAG_INTEGER : Nat := 0x00000003
def TAG_ATOM : Nat := 0x00000004
def TAG_STRING : Nat := 0x00000005
def TAG_COMPOUND : Nat := 0x00000006
def TAG_REFERENCE : Nat := 0x00000007

def STG_MASK : Nat := 0x3 <<< 3
def STG_STATIC : Nat := 0x0 <<< 3
def STG_GLOBAL : Nat := 0x1 <<< 3
def STG_LOCAL : Nat := 0x2 <<< 3
def STG_RESERVED : Nat := 0x3 <<< 3

def STG_INLINE : Nat := STG_STATIC
def STG_TRAIL : Nat := STG_STATIC

def MARK_MASK : Nat := 0x1 <<< 5
def FIRST_MASK : Nat := 0x2 <<< 5

/-! ## GC bits

The macros take a pointer `p` and update `*(p)`; each definition below is the
new content of `*(p)` as a function of the old content `w`. -/

/-- New content of the cell after `*(p) |= MARK_MASK`. -/
def set_marked (w : Nat) : Nat := w ||| MARK_MASK

/-- New content of the cell after `*(p) |= FIRST_MASK`. -/
def set_first (w : Nat) : Nat := w ||| FIRST_MASK

/-- New content of the cell after `*(p) &= ~MARK_MASK`. -/
def clear_marked (W : Nat) (w : Nat) : Nat := w &&& wnot W MARK_MASK

/-- New content of the cell after `*(p) &= ~FIRST_MASK`. -/
def clear_first (W : Nat) (w : Nat) : Nat := w &&& wnot W FIRST_MASK

/-- New content of the cell after `*(p) &= ~(FIRST_MASK|MARK_MASK)`. -/
def clear_both (W : Nat) (w : Nat) : Nat := w &&& wnot W (FIRST_MASK ||| MARK_MASK)

/-- The value `*(p) & MARK_MASK` for cell content `w`. -/
def is_marked (w : Nat) : Nat := w &&& MARK_MASK

/-- The value `*(p) & FIRST_MASK` for cell content `w`. -/
def is_first (w : Nat) : Nat := w &&& FIRST_MASK

/-! ## Field extraction -/

def tag (w : Nat) : Nat := w &&& TAG_MASK

def storage (w : Nat) : Nat := w &&& STG_MASK

/-- The macro `valPtr2(w, s)`; `base` is the table `base_addresses[]`. -/
def valPtr2 (W : Nat) (base : Nat → Nat) (w s : Nat) : Nat :=
  ((w >>> 5) + base s) % 2 ^ W

def valPtr (W : Nat) (base : Nat → Nat) (w : Nat) : Nat :=
  valPtr2 W base w (storage w)

/-- The macro `valInt(w)`: `(long)(w) >> 7`, an arithmetic shift. -/
def valInt (W : Nat) (w : Nat) : Int := toLong W w >>> (7 : Nat)

def tagex (w : Nat) : Nat := w &&& (TAG_MASK ||| STG_MASK)

/-! ## Basic type tests -/

def isVar (w : Nat) : Bool := w == 0

def isAtom (w : Nat) : Bool := tagex w == TAG_ATOM

def isInteger (w : Nat) : Bool := tag w == TAG_INTEGER

def isReal (w : Nat) : Bool := tag w == TAG_FLOAT

def isString (w : Nat) : Bool := tag w == TAG_STRING

def isTerm (w : Nat) : Bool := tag w == TAG_COMPOUND

/-! ## Creating words -/

/-- The constant `MAXTAGGEDPTR`: `(1L << (8*sizeof(word) - 5)) - 1`. -/
def MAXTAGGEDPTR (W : Nat) : Nat := (1 <<< (8 * sizeofWord W - 5)) - 1

/-- The macro `consInt(n)`: `((word)(n) << 7) | TAG_INTEGER`. -/
def consInt (W : Nat) (n : Int) : Nat := wshl W (toWord W n) 7 ||| TAG_INTEGER

/-- The macro `consPtr(p, ts)` of the non-debug build. -/
def consPtr (W : Nat) (base : Nat → Nat) (p ts : Nat) : Nat :=
  (wshl W (wsub W p (base (ts &&& STG_MASK))) 5 ||| ts) % 2 ^ W

/-! ## References -/

def isRef (w : Nat) : Bool := tag w == TAG_REFERENCE

def isRefL (w : Nat) : Bool := tagex w == (TAG_REFERENCE ||| STG_LOCAL)

def unRef (W : Nat) (base : Nat → Nat) (w : Nat) : Nat := valPtr W base w

def unRefL (W : Nat) (base : Nat → Nat) (w : Nat) : Nat := valPtr2 W base w STG_LOCAL

/-- The loop `while(isRef(*(p))) (p) = unRef(*(p));` of `deRef(p)`.  `fuel`
bounds the number of evaluations of the loop condition; the result is the
final `p` together with the number of executions of the loop body, or `none`
when the fuel is used up before the condition turns false. -/
def deRefLoop (W : Nat) (base : Nat → Nat) (mem : Nat → Nat) :
    Nat → Nat → Nat → Option (Nat × Nat)
  | 0, _, _ => none
  | fuel + 1, p, hops =>
    if isRef (mem p) then deRefLoop W base mem fuel (unRef W base (mem p)) (hops + 1)
    else some (p, hops)

/-- The macro `deRef(p)`, started with no loop iteration done. -/
def deRef (W : Nat) (base : Nat → Nat) (mem : Nat → Nat) (fuel p : Nat) :
    Option (Nat × Nat) :=
  deRefLoop W base mem fuel p 0

def makeRefL (W : Nat) (base : Nat → Nat) (p : Nat) : Nat :=
  consPtr W base p (TAG_REFERENCE ||| STG_LOCAL)

def makeRefG (W : Nat) (base : Nat → Nat) (p : Nat) : Nat :=
  consPtr W base p (TAG_REFERENCE ||| STG_GLOBAL)

/-- The macro `needsRef(w)`; `attvar` says whether `O_ATTVAR` is defined. -/
def needsRef (attvar : Bool) (w : Nat) : Bool :=
  if attvar then decide (tag w ≤ TAG_ATTVAR) else isVar w

/-! ## Attributed variables -/

def isAttVar (w : Nat) : Bool := tag w == TAG_ATTVAR

def canBind (attvar : Bool) (w : Nat) : Bool := needsRef attvar w

/-! ## Indirects -/

/-- The constant `PADBITS`, selected by `SIZEOF_LONG` (4 or 8; the header
defines it in no other configuration, where this model gives 0). -/
def PADBITS (W : Nat) : Nat :=
  if sizeofWord W = 4 then 2 else if sizeofWord W = 8 then 3 else 0

/-- The constant `PADMASK`: `sizeof(word)-1`. -/
def PADMASK (W : Nat) : Nat := sizeofWord W - 1

def mkIndHdr (W : Nat) (n t : Nat) : Nat :=
  wshl W n (LMASK_BITS + PADBITS W) ||| t ||| STG_LOCAL

def wsizeofInd (W : Nat) (iw : Nat) : Nat := iw >>> (LMASK_BITS + PADBITS W)

/-- The macro `padHdr(iw)`; the fallback is `sizeof(long)`. -/
def padHdr (W : Nat) (iw : Nat) : Nat :=
  if (iw >>> LMASK_BITS) &&& PADMASK W ≠ 0 then (iw >>> LMASK_BITS) &&& PADMASK W
  else sizeofWord W

def mkPadHdr (W : Nat) (n : Nat) : Nat := wshl W (n &&& PADMASK W) LMASK_BITS

/-- The macro `mkStrHdr(n,p)`.  Its body is `mkIndHdr(n, TAG_STRING)|mkPadHdr(pad)`:
the parameter `p` is not used and the pad count is the identifier `pad` of the
expansion site, the third argument here. -/
def mkStrHdr (W : Nat) (n p : Nat) (pad : Nat) : Nat :=
  let _ := p
  mkIndHdr W n TAG_STRING ||| mkPadHdr W pad

/-! ## Functors -/

def F_ARITY_BITS : Nat := 5

def F_ARITY_MASK : Nat := (1 <<< F_ARITY_BITS) - 1

def MK_FUNCTOR (W : Nat) (n a : Nat) : Nat :=
  wshl W (wshl W n F_ARITY_BITS ||| a) LMASK_BITS ||| TAG_ATOM ||| STG_GLOBAL

def indexFunctor (w : Nat) : Nat := w >>> (LMASK_BITS + F_ARITY_BITS)

/-- The fields of a functor descriptor (`FunctorDef`) read by this header. -/
structure FunctorDef where
  name : Nat
  arity : Nat
  deriving DecidableEq, Repr

/-- The macro `valueFunctor(w)`: entry `indexFunctor(w)` of `functor_array`. -/
def valueFunctor (functor_array : Nat → FunctorDef) (w : Nat) : FunctorDef :=
  functor_array (indexFunctor w)

def _arityFunc_ (w : Nat) : Nat := (w >>> LMASK_BITS) &&& F_ARITY_MASK

def arityFunctor (functor_array : Nat → FunctorDef) (w : Nat) : Nat :=
  if _arityFunc_ w ≠ F_ARITY_MASK then _arityFunc_ w
  else (valueFunctor functor_array w).arity

/-! ## Sequences of GC-bit updates -/

/-- The five macros that update the GC bits of a cell. -/
inductive GcOp where
  | setMarked
  | setFirst
  | clearMarked
  | clearFirst
  | clearBoth
  deriving DecidableEq, Repr

/-- The effect of one GC-bit macro on the content of the cell. -/
def GcOp.apply (W : Nat) : GcOp → Nat → Nat
  | .setMarked, w => set_marked w
  | .setFirst, w => set_first w
  | .clearMarked, w => clear_marked W w
  | .clearFirst, w => clear_first W w
  | .clearBoth, w => clear_both W w

/-- The content of a cell after a sequence of GC-bit macros, applied in order. -/
def applyGcOps (W : Nat) : List GcOp → Nat → Nat
  | [], w => w
  | op :: ops, w => applyGcOps W ops (op.apply W w)

/-- The mark bit after one GC-bit macro, given the mark bit before: set by
`set_marked`, cleared by `clear_marked` and `clear_both`, kept by the others. -/
def GcOp.markAfter : GcOp → Bool → Bool
  | .setMarked, _ => true
  | .clearMarked, _ => false
  | .clearBoth, _ => false
  | .setFirst, b => b
  | .clearFirst, b => b

/-- The first bit after one GC-bit macro, given the first bit before. -/
def GcOp.firstAfter : GcOp → Bool → Bool
  | .setFirst, _ => true
  | .clearFirst, _ => false
  | .clearBoth, _ => false
  | .setMarked, b => b
  | .clearMarked, b => b

/-- The mark bit after a sequence of GC-bit macros: the effect of the last
macro in the sequence that sets or clears it. -/
def markAfterOps : List GcOp → Bool → Bool
  | [], b => b
  | op :: ops, b => markAfterOps ops (op.markAfter b)

/-- The first bit after a sequence of GC-bit macros. -/
def firstAfterOps : List GcOp → Bool → Bool
  | [], b => b
  | op :: ops, b => firstAfterOps ops (op.firstAfter b)

/-! ## Boxed integers -/

def addressIndirect (W : Nat) (base : Nat → Nat) (w : Nat) : Nat := valPtr W base w

/-- The macro `wsizeofIndirect(w)`: `wsizeofInd(*addressIndirect(w))`, the
size field of the header word that `w` points to in the store `mem`. -/
def wsizeofIndirect (W : Nat) (base mem : Nat → Nat) (w : Nat) : Nat :=
  wsizeofInd W (mem (addressIndirect W base w))

def isTaggedInt (w : Nat) : Bool := tagex w == (TAG_INTEGER ||| STG_INLINE)

/-- The constant `sizeof(int64_t)/sizeof(word)`. -/
def int64Words (W : Nat) : Nat := 8 / sizeofWord W

def isBignum (W : Nat) (base mem : Nat → Nat) (w : Nat) : Bool :=
  isInteger w && (storage w != STG_INLINE) &&
    (wsizeofIndirect W base mem w == int64Words W)

def isMPZNum (W : Nat) (base mem : Nat → Nat) (w : Nat) : Bool :=
  isInteger w && (storage w != STG_INLINE) &&
    decide (wsizeofIndirect W base mem w > int64Words W)

/-- The two-test form of `isTaggedInt` given in the comment next to it:
`(isInteger(w) && storage(w) == STG_INLINE)`. -/
def isTaggedInt_documented (w : Nat) : Bool := isInteger w && (storage w == STG_INLINE)

/-! ## Binding

`Trail` and `assignAttVar` are defined outside this header.  A call to one
of them is recorded, with its arguments, in the order in which it is made. -/

/-- A call made by `bindConst` to a function defined outside this header. -/
inductive Call where
  | Trail (p : Nat)
  | assignAttVar (p : Nat) (c : Nat)
  deriving DecidableEq, Repr

/-- The store together with the calls made so far. -/
structure BindState where
  mem : Nat → Nat
  calls : List Call

/-- The macro `bindConst(p, c)`; `attvar` says whether `O_ATTVAR` is defined.
The second argument of `assignAttVar` is `&c`, recorded as the value `c`. -/
def bindConst (attvar : Bool) (st : BindState) (p c : Nat) : BindState :=
  if attvar then
    if isVar (st.mem p) then
      { mem := fun a => if a = p then c else st.mem a,
        calls := st.calls ++ [Call.Trail p] }
    else
      { mem := st.mem, calls := st.calls ++ [Call.assignAttVar p c] }
  else
    { mem := fun a => if a = p then c else st.mem a,
      calls := st.calls ++ [Call.Trail p] }

/-! ## Auxiliary facts on bit operations -/

theorem lor_eq_add_of_mod (k a b : Nat) (ha : a % 2 ^ k = 0) (hb : b < 2 ^ k) :
    a ||| b = a + b := by
  obtain ⟨q, rfl⟩ := Nat.dvd_of_mod_eq_zero ha
  exact (Nat.mul_add_lt_is_or hb q).symm

theorem tag_eq_mod (w : Nat) : tag w = w % 8 :=
  Nat.and_pow_two_sub_one_eq_mod w 3

theorem tagex_eq_mod (w : Nat) : tagex w = w % 32 :=
  Nat.and_pow_two_sub_one_eq_mod w 5

theorem tag_tagex (w : Nat) : tag (tagex w) = tag w := by
  unfold tag tagex
  rw [Nat.and_assoc]
  rfl

theorem storage_tagex (w : Nat) : storage (tagex w) = storage w := by
  unfold storage tagex
  rw [Nat.and_assoc]
  rfl

theorem wshl_mod_eq_zero (W k x : Nat) (h : k ≤ W) : wshl W x k % 2 ^ k = 0 := by
  unfold wshl
  rw [Nat.mod_mod_of_dvd _ (Nat.pow_dvd_pow 2 h), Nat.shiftLeft_eq]
  exact Nat.mul_mod_left _ _

theorem storage_cases (w : Nat) :
    storage w = STG_STATIC ∨ storage w = STG_GLOBAL ∨ storage w = STG_LOCAL ∨
      storage w = STG_RESERVED := by
  have key : ∀ x, x < 32 → (storage x = STG_STATIC ∨ storage x = STG_GLOBAL ∨
      storage x = STG_LOCAL ∨ storage x = STG_RESERVED) := by decide
  rw [← storage_tagex]
  exact key _ (by rw [tagex_eq_mod]; exact Nat.mod_lt _ (by norm_num))

theorem GcOp.tagex_apply (W : Nat) (hW : W = 32 ∨ W = 64) (op : GcOp) (w : Nat) :
    tagex (op.apply W w) = tagex w := by
  rcases hW with rfl | rfl <;> cases op <;>
    simp only [GcOp.apply, set_marked, set_first, clear_marked, clear_first, clear_both,
      tagex] <;>
    first
    | (rw [Nat.and_distrib_right]; exact Nat.or_zero _)
    | (rw [Nat.and_assoc]; rfl)

theorem tagex_applyGcOps (W : Nat) (hW : W = 32 ∨ W = 64) (ops : List GcOp) (w : Nat) :
    tagex (applyGcOps W ops w) = tagex w := by
  induction ops generalizing w with
  | nil => rfl
  | cons op ops ih =>
    show tagex (applyGcOps W ops (op.apply W w)) = tagex w
    rw [ih, GcOp.tagex_apply W hW]

theorem deRefLoop_chain (W : Nat) (base mem c : Nat → Nat) (k : Nat)
    (hchain : ∀ i, i < k → isRef (mem (c i)) = true ∧ unRef W base (mem (c i)) = c (i + 1))
    (hend : isRef (mem (c k)) = false) :
    ∀ d j hops fuel, j + d = k → d < fuel →
      deRefLoop W base mem fuel (c j) hops = some (c k, hops + d) := by
  intro d
  induction d with
  | zero =>
    intro j hops fuel hj hf
    obtain ⟨f, rfl⟩ : ∃ f, fuel = f + 1 := ⟨fuel - 1, by omega⟩
    have hjk : j = k := by omega
    subst hjk
    simp [deRefLoop, hend]
  | succ d ih =>
    intro j hops fuel hj hf
    obtain ⟨f, rfl⟩ : ∃ f, fuel = f + 1 := ⟨fuel - 1, by omega⟩
    obtain ⟨hr, hu⟩ := hchain j (by omega)
    simp only [deRefLoop, hr, if_true, hu]
    rw [ih (j + 1) (hops + 1) f (by omega) (by omega)]
    congr 2
    omega

theorem deRefLoop_short (W : Nat) (base mem c : Nat → Nat) (k : Nat)
    (hchain : ∀ i, i < k → isRef (mem (c i)) = true ∧ unRef W base (mem (c i)) = c (i + 1)) :
    ∀ fuel j hops, j + fuel ≤ k → deRefLoop W base mem fuel (c j) hops = none := by
  intro fuel
  induction fuel with
  | zero => intro j hops _; rfl
  | succ f ih =>
    intro j hops hj
    obtain ⟨hr, hu⟩ := hchain j (by omega)
    simp only [deRefLoop, hr, if_true, hu]
    exact ih (j + 1) (hops + 1) (by omega)

theorem lt_32_of_and_wnot (W : Nat) (hW : 5 ≤ W) (ts : Nat) (h1 : ts < 2 ^ W)
    (h2 : ts &&& wnot W (TAG_MASK ||| STG_MASK) = 0) : ts < 32 := by
  by_contra hge
  have hge5 : ts ≥ 2 ^ 5 := by
    have : (2 : Nat) ^ 5 = 32 := by norm_num
    omega
  obtain ⟨i, hi, hbit⟩ := Nat.ge_two_pow_implies_high_bit_true hge5
  have hiW : i < W := by
    by_contra hc
    have hlt : ts < 2 ^ i := lt_of_lt_of_le h1 (Nat.pow_le_pow_right (by norm_num) (by omega))
    have := Nat.testBit_lt_two_pow hlt
    rw [hbit] at this
    exact Bool.noConfusion this
  have h31 : (31 : Nat) < 2 ^ W :=
    lt_of_lt_of_le (by norm_num) (Nat.pow_le_pow_right (by norm_num) hW)
  have h31i : Nat.testBit 31 i = false :=
    Nat.testBit_lt_two_pow (lt_of_lt_of_le (by norm_num) (Nat.pow_le_pow_right (by norm_num) hi))
  have hm : wnot W (TAG_MASK ||| STG_MASK) = 2 ^ W - (31 + 1) := by
    have : TAG_MASK ||| STG_MASK = 31 := by decide
    unfold wnot
    rw [this]
    omega
  have hb : (ts &&& wnot W (TAG_MASK ||| STG_MASK)).testBit i = true := by
    rw [Nat.testBit_and, hbit, hm, Nat.testBit_two_pow_sub_succ h31, h31i]
    simp [hiW]
  rw [h2] at hb
  simp at hb

theorem MAXTAGGEDPTR_32 : MAXTAGGEDPTR 32 = 2 ^ 27 - 1 := by decide

theorem MAXTAGGEDPTR_64 : MAXTAGGEDPTR 64 = 2 ^ 59 - 1 := by decide

theorem consPtr_eq (W : Nat) (hW : W = 32 ∨ W = 64) (base : Nat → Nat) (p ts : Nat)
    (hp : p < 2 ^ W) (hts : ts < 32) (hb : base (ts &&& STG_MASK) ≤ p)
    (hr : p - base (ts &&& STG_MASK) ≤ MAXTAGGEDPTR W) :
    consPtr W base p ts = (p - base (ts &&& STG_MASK)) * 32 + ts := by
  have hm : wshl W (wsub W p (base (ts &&& STG_MASK))) 5 % 2 ^ 5 = 0 :=
    wshl_mod_eq_zero W 5 _ (by rcases hW with rfl | rfl <;> norm_num)
  unfold consPtr
  rw [lor_eq_add_of_mod 5 _ _ hm (by norm_num; exact hts)]
  generalize base (ts &&& STG_MASK) = b at *
  rcases hW with rfl | rfl
  · rw [MAXTAGGEDPTR_32] at hr
    unfold wshl wsub toWord at *
    rw [Nat.shiftLeft_eq] at *
    norm_num at *
    omega
  · rw [MAXTAGGEDPTR_64] at hr
    unfold wshl wsub toWord at *
    rw [Nat.shiftLeft_eq] at *
    norm_num at *
    omega

theorem valPtr2_consPtr (W : Nat) (hW : W = 32 ∨ W = 64) (base : Nat → Nat) (p ts : Nat)
    (hp : p < 2 ^ W) (hts : ts < 32) (hb : base (ts &&& STG_MASK) ≤ p)
    (hr : p - base (ts &&& STG_MASK) ≤ MAXTAGGEDPTR W) :
    valPtr2 W base (consPtr W base p ts) (ts &&& STG_MASK) = p := by
  rw [consPtr_eq W hW base p ts hp hts hb hr]
  unfold valPtr2
  rw [Nat.shiftRight_eq_div_pow]
  generalize base (ts &&& STG_MASK) = b at *
  have : ((p - b) * 32 + ts) / 2 ^ 5 = p - b := by
    norm_num
    omega
  rw [this, Nat.mod_eq_of_lt (by omega)]
  omega

theorem tagex_consPtr (W : Nat) (hW : W = 32 ∨ W = 64) (base : Nat → Nat) (p ts : Nat)
    (hp : p < 2 ^ W) (hts : ts < 32) (hb : base (ts &&& STG_MASK) ≤ p)
    (hr : p - base (ts &&& STG_MASK) ≤ MAXTAGGEDPTR W) :
    tagex (consPtr W base p ts) = ts := by
  rw [consPtr_eq W hW base p ts hp hts hb hr, tagex_eq_mod]
  omega

theorem toWord_cast (W : Nat) (x : Int) :
    ((toWord W x : Nat) : Int) = x % ((2 ^ W : Nat) : Int) := by
  unfold toWord
  have hpos : (0 : Int) < ((2 ^ W : Nat) : Int) := by positivity
  exact Int.toNat_of_nonneg (Int.emod_nonneg _ (ne_of_gt hpos))

theorem toWord_emod (W : Nat) (x : Int) :
    toWord W (x % ((2 ^ W : Nat) : Int)) = toWord W x := by
  unfold toWord
  rw [Int.emod_emod_of_dvd _ (dvd_refl _)]

theorem toWord_natCast (W : Nat) (x : Nat) : toWord W (x : Int) = x % 2 ^ W := by
  unfold toWord
  rw [← Int.natCast_mod, Int.toNat_natCast]

theorem MK_FUNCTOR_eq (W : Nat) (hW : W = 32 ∨ W = 64) (n a : Nat)
    (hn : n < 2 ^ (W - 12)) (ha : a < 32) :
    MK_FUNCTOR W n a = (n * 32 + a) * 128 + 12 := by
  have h5 : wshl W n F_ARITY_BITS % 2 ^ 5 = 0 :=
    wshl_mod_eq_zero W 5 _ (by rcases hW with rfl | rfl <;> norm_num)
  have h7 : ∀ x, wshl W x LMASK_BITS % 2 ^ 7 = 0 := fun x =>
    wshl_mod_eq_zero W 7 x (by rcases hW with rfl | rfl <;> norm_num)
  have h12 : TAG_ATOM ||| STG_GLOBAL = 12 := by decide
  unfold MK_FUNCTOR
  rw [lor_eq_add_of_mod 5 _ _ h5 (by norm_num; exact ha), Nat.or_assoc, h12,
    lor_eq_add_of_mod 7 _ _ (h7 _) (by norm_num)]
  rcases hW with rfl | rfl <;>
  · unfold wshl F_ARITY_BITS LMASK_BITS
    rw [Nat.shiftLeft_eq, Nat.shiftLeft_eq]
    norm_num at *
    omega

theorem arityFunc_eq_mod (w : Nat) : _arityFunc_ w = w / 128 % 32 := by
  show (w >>> 7) &&& (2 ^ 5 - 1) = w / 128 % 32
  rw [Nat.and_pow_two_sub_one_eq_mod, Nat.shiftRight_eq_div_pow]

theorem indexFunctor_eq_div (w : Nat) : indexFunctor w = w / 4096 := by
  show w >>> 12 = w / 4096
  rw [Nat.shiftRight_eq_div_pow]

theorem arityFunc_MK_FUNCTOR (W : Nat) (hW : W = 32 ∨ W = 64) (n a : Nat)
    (hn : n < 2 ^ (W - 12)) (ha : a < 32) : _arityFunc_ (MK_FUNCTOR W n a) = a := by
  rw [MK_FUNCTOR_eq W hW n a hn ha, arityFunc_eq_mod]
  omega

theorem indexFunctor_MK_FUNCTOR (W : Nat) (hW : W = 32 ∨ W = 64) (n a : Nat)
    (hn : n < 2 ^ (W - 12)) (ha : a < 32) : indexFunctor (MK_FUNCTOR W n a) = n := by
  rw [MK_FUNCTOR_eq W hW n a hn ha, indexFunctor_eq_div]
  omega

theorem arityFunctor_sentinel (W : Nat) (hW : W = 32 ∨ W = 64)
    (functor_array : Nat → FunctorDef) (n : Nat) (hn : n < 2 ^ (W - 12)) :
    arityFunctor functor_array (MK_FUNCTOR W n 31) = (functor_array n).arity := by
  unfold arityFunctor valueFunctor
  rw [arityFunc_MK_FUNCTOR W hW n 31 hn (by norm_num),
    indexFunctor_MK_FUNCTOR W hW n 31 hn (by norm_num)]
  simp [F_ARITY_MASK, F_ARITY_BITS]

theorem low_bits_strHdr (d : Nat) (hd : d % 2 ^ 7 = 0) :
    TAG_STRING ||| (STG_LOCAL ||| d) = d + 21 := by
  have h21 : TAG_STRING ||| STG_LOCAL = 21 := by decide
  rw [← Nat.or_assoc, h21, Nat.or_comm, lor_eq_add_of_mod 7 d 21 hd (by norm_num)]

theorem mkStrHdr_eq_32 (n p pad : Nat) (hn : n < 2 ^ 23) (hpad : pad < 4) :
    mkStrHdr 32 n p pad = n * 512 + pad * 128 + 21 := by
  have hP : PADBITS 32 = 2 := by decide
  have hM : PADMASK 32 = 2 ^ 2 - 1 := by decide
  have hL : LMASK_BITS = 7 := rfl
  have hd : wshl 32 (pad &&& PADMASK 32) LMASK_BITS = pad * 128 := by
    rw [hM, Nat.and_pow_two_sub_one_eq_mod, hL]
    unfold wshl
    rw [Nat.shiftLeft_eq]
    norm_num
    omega
  have ha : wshl 32 n (LMASK_BITS + PADBITS 32) = n * 512 := by
    rw [hP, hL]
    unfold wshl
    rw [Nat.shiftLeft_eq]
    norm_num at *
    omega
  unfold mkStrHdr mkIndHdr mkPadHdr
  rw [hd, ha, Nat.or_assoc, Nat.or_assoc, low_bits_strHdr _ (by norm_num),
    lor_eq_add_of_mod 9 _ _ (by norm_num) (by norm_num; omega)]
  omega

theorem mkStrHdr_eq_64 (n p pad : Nat) (hn : n < 2 ^ 54) (hpad : pad < 8) :
    mkStrHdr 64 n p pad = n * 1024 + pad * 128 + 21 := by
  have hP : PADBITS 64 = 3 := by decide
  have hM : PADMASK 64 = 2 ^ 3 - 1 := by decide
  have hL : LMASK_BITS = 7 := rfl
  have hd : wshl 64 (pad &&& PADMASK 64) LMASK_BITS = pad * 128 := by
    rw [hM, Nat.and_pow_two_sub_one_eq_mod, hL]
    unfold wshl
    rw [Nat.shiftLeft_eq]
    norm_num
    omega
  have ha : wshl 64 n (LMASK_BITS + PADBITS 64) = n * 1024 := by
    rw [hP, hL]
    unfold wshl
    rw [Nat.shiftLeft_eq]
    norm_num at *
    omega
  unfold mkStrHdr mkIndHdr mkPadHdr
  rw [hd, ha, Nat.or_assoc, Nat.or_assoc, low_bits_strHdr _ (by norm_num),
    lor_eq_add_of_mod 10 _ _ (by norm_num) (by norm_num; omega)]
  omega

theorem padField_eq_32 (h : Nat) : (h >>> LMASK_BITS) &&& PADMASK 32 = h / 128 % 4 := by
  show (h >>> 7) &&& (2 ^ 2 - 1) = h / 128 % 4
  rw [Nat.and_pow_two_sub_one_eq_mod, Nat.shiftRight_eq_div_pow]

theorem padField_eq_64 (h : Nat) : (h >>> LMASK_BITS) &&& PADMASK 64 = h / 128 % 8 := by
  show (h >>> 7) &&& (2 ^ 3 - 1) = h / 128 % 8
  rw [Nat.and_pow_two_sub_one_eq_mod, Nat.shiftRight_eq_div_pow]

theorem wsizeofInd_eq_32 (h : Nat) : wsizeofInd 32 h = h / 512 := by
  show h >>> 9 = h / 512
  rw [Nat.shiftRight_eq_div_pow]

theorem wsizeofInd_eq_64 (h : Nat) : wsizeofInd 64 h = h / 1024 := by
  show h >>> 10 = h / 1024
  rw [Nat.shiftRight_eq_div_pow]

theorem mkPadHdr_eq (W : Nat) (hW : W = 32 ∨ W = 64) (p : Nat) :
    mkPadHdr W p = p % sizeofWord W * 128 := by
  rcases hW with rfl | rfl
  · have hM : PADMASK 32 = 2 ^ 2 - 1 := by decide
    have hs : sizeofWord 32 = 4 := by decide
    unfold mkPadHdr wshl LMASK_BITS
    rw [hM, hs, Nat.and_pow_two_sub_one_eq_mod, Nat.shiftLeft_eq]
    norm_num
    omega
  · have hM : PADMASK 64 = 2 ^ 3 - 1 := by decide
    have hs : sizeofWord 64 = 8 := by decide
    unfold mkPadHdr wshl LMASK_BITS
    rw [hM, hs, Nat.and_pow_two_sub_one_eq_mod, Nat.shiftLeft_eq]
    norm_num
    omega

theorem isTaggedInt_iff_aux (w : Nat) :
    isTaggedInt w = true ↔ (isInteger w = true ∧ storage w = STG_INLINE) := by
  have key : ∀ x, x < 32 →
      ((x == (TAG_INTEGER ||| STG_INLINE)) = true ↔
        ((tag x == TAG_INTEGER) = true ∧ storage x = STG_INLINE)) := by
    decide
  have hx : tagex w < 32 := by rw [tagex_eq_mod]; exact Nat.mod_lt _ (by norm_num)
  have := key (tagex w) hx
  rw [tag_tagex, storage_tagex] at this
  exact this

theorem testBit_MARK_MASK (i : Nat) : MARK_MASK.testBit i = decide (i = 5) := by
  have h : MARK_MASK = 2 ^ 5 := rfl
  rw [h, Nat.testBit_two_pow]
  by_cases hi : i = 5 <;> simp [hi, eq_comm]

theorem testBit_FIRST_MASK (i : Nat) : FIRST_MASK.testBit i = decide (i = 6) := by
  have h : FIRST_MASK = 2 ^ 6 := rfl
  rw [h, Nat.testBit_two_pow]
  by_cases hi : i = 6 <;> simp [hi, eq_comm]

theorem testBit_and_wnot (W w m i : Nat) (hw : w < 2 ^ W) (hm : m < 2 ^ W) :
    (w &&& wnot W m).testBit i = (w.testBit i && !m.testBit i) := by
  have h : wnot W m = 2 ^ W - (m + 1) := by unfold wnot; omega
  rw [Nat.testBit_and, h, Nat.testBit_two_pow_sub_succ hm]
  by_cases hi : i < W
  · simp [hi]
  · have hwi : w.testBit i = false :=
      Nat.testBit_lt_two_pow
        (lt_of_lt_of_le hw (Nat.pow_le_pow_right (by norm_num) (by omega)))
    simp [hwi]

theorem mask_lt_two_pow (W : Nat) (h7 : 7 ≤ W) (m : Nat) (hm : m < 2 ^ 7) : m < 2 ^ W :=
  lt_of_lt_of_le hm (Nat.pow_le_pow_right (by norm_num) h7)

theorem testBit_set_marked (w i : Nat) :
    (set_marked w).testBit i = (w.testBit i || decide (i = 5)) := by
  unfold set_marked
  rw [Nat.testBit_or, testBit_MARK_MASK]

theorem testBit_set_first (w i : Nat) :
    (set_first w).testBit i = (w.testBit i || decide (i = 6)) := by
  unfold set_first
  rw [Nat.testBit_or, testBit_FIRST_MASK]

theorem testBit_clear_marked (W : Nat) (h7 : 7 ≤ W) (w : Nat) (hw : w < 2 ^ W) (i : Nat) :
    (clear_marked W w).testBit i = (w.testBit i && !decide (i = 5)) := by
  unfold clear_marked
  rw [testBit_and_wnot W w _ i hw (mask_lt_two_pow W h7 _ (by decide)), testBit_MARK_MASK]

theorem testBit_clear_first (W : Nat) (h7 : 7 ≤ W) (w : Nat) (hw : w < 2 ^ W) (i : Nat) :
    (clear_first W w).testBit i = (w.testBit i && !decide (i = 6)) := by
  unfold clear_first
  rw [testBit_and_wnot W w _ i hw (mask_lt_two_pow W h7 _ (by decide)), testBit_FIRST_MASK]

theorem testBit_clear_both (W : Nat) (h7 : 7 ≤ W) (w : Nat) (hw : w < 2 ^ W) (i : Nat) :
    (clear_both W w).testBit i = (w.testBit i && !decide (i = 5 ∨ i = 6)) := by
  unfold clear_both
  rw [testBit_and_wnot W w _ i hw (mask_lt_two_pow W h7 _ (by decide)), Nat.testBit_or,
    testBit_MARK_MASK, testBit_FIRST_MASK]
  by_cases h5 : i = 5 <;> by_cases h6 : i = 6 <;> simp [h5, h6]

theorem and_two_pow_ne_zero (x k : Nat) : decide (x &&& 2 ^ k ≠ 0) = x.testBit k := by
  cases hb : x.testBit k
  · have hz : x &&& 2 ^ k = 0 := by
      apply Nat.eq_of_testBit_eq
      intro i
      rw [Nat.testBit_and, Nat.testBit_two_pow, Nat.zero_testBit]
      by_cases hi : k = i
      · subst hi; simp [hb]
      · simp [hi]
    simp [hz]
  · have hne : x &&& 2 ^ k ≠ 0 := by
      intro hz
      have hbit : (x &&& 2 ^ k).testBit k = true := by
        rw [Nat.testBit_and, hb, Nat.testBit_two_pow_self]
        rfl
      rw [hz, Nat.zero_testBit] at hbit
      exact Bool.noConfusion hbit
    simp [hne]

theorem is_marked_ne_zero (x : Nat) : decide (is_marked x ≠ 0) = x.testBit 5 :=
  and_two_pow_ne_zero x 5

theorem is_first_ne_zero (x : Nat) : decide (is_first x ≠ 0) = x.testBit 6 :=
  and_two_pow_ne_zero x 6

theorem GcOp.apply_lt (W : Nat) (h7 : 7 ≤ W) (op : GcOp) (w : Nat) (hw : w < 2 ^ W) :
    op.apply W w < 2 ^ W := by
  cases op
  · exact Nat.or_lt_two_pow hw (mask_lt_two_pow W h7 _ (by decide))
  · exact Nat.or_lt_two_pow hw (mask_lt_two_pow W h7 _ (by decide))
  · exact lt_of_le_of_lt Nat.and_le_left hw
  · exact lt_of_le_of_lt Nat.and_le_left hw
  · exact lt_of_le_of_lt Nat.and_le_left hw

theorem GcOp.testBit5_apply (W : Nat) (h7 : 7 ≤ W) (op : GcOp) (w : Nat) (hw : w < 2 ^ W) :
    (op.apply W w).testBit 5 = op.markAfter (w.testBit 5) := by
  cases op
  · simp [GcOp.apply, GcOp.markAfter, testBit_set_marked]
  · simp [GcOp.apply, GcOp.markAfter, testBit_set_first]
  · simp [GcOp.apply, GcOp.markAfter, testBit_clear_marked W h7 w hw]
  · simp [GcOp.apply, GcOp.markAfter, testBit_clear_first W h7 w hw]
  · simp [GcOp.apply, GcOp.markAfter, testBit_clear_both W h7 w hw]

theorem GcOp.testBit6_apply (W : Nat) (h7 : 7 ≤ W) (op : GcOp) (w : Nat) (hw : w < 2 ^ W) :
    (op.apply W w).testBit 6 = op.firstAfter (w.testBit 6) := by
  cases op
  · simp [GcOp.apply, GcOp.firstAfter, testBit_set_marked]
  · simp [GcOp.apply, GcOp.firstAfter, testBit_set_first]
  · simp [GcOp.apply, GcOp.firstAfter, testBit_clear_marked W h7 w hw]
  · simp [GcOp.apply, GcOp.firstAfter, testBit_clear_first W h7 w hw]
  · simp [GcOp.apply, GcOp.firstAfter, testBit_clear_both W h7 w hw]

theorem is_marked_applyGcOps (W : Nat) (h7 : 7 ≤ W) (ops : List GcOp) (w : Nat)
    (hw : w < 2 ^ W) :
    decide (is_marked (applyGcOps W ops w) ≠ 0) =
      markAfterOps ops (decide (is_marked w ≠ 0)) := by
  induction ops generalizing w with
  | nil => rfl
  | cons op ops ih =>
    show decide (is_marked (applyGcOps W ops (op.apply W w)) ≠ 0) =
      markAfterOps ops (op.markAfter (decide (is_marked w ≠ 0)))
    rw [ih _ (GcOp.apply_lt W h7 op w hw), is_marked_ne_zero, is_marked_ne_zero,
      GcOp.testBit5_apply W h7 op w hw]

theorem is_first_applyGcOps (W : Nat) (h7 : 7 ≤ W) (ops : List GcOp) (w : Nat)
    (hw : w < 2 ^ W) :
    decide (is_first (applyGcOps W ops w) ≠ 0) =
      firstAfterOps ops (decide (is_first w ≠ 0)) := by
  induction ops generalizing w with
  | nil => rfl
  | cons op ops ih =>
    show decide (is_first (applyGcOps W ops (op.apply W w)) ≠ 0) =
      firstAfterOps ops (op.firstAfter (decide (is_first w ≠ 0)))
    rw [ih _ (GcOp.apply_lt W h7 op w hw), is_first_ne_zero, is_first_ne_zero,
      GcOp.testBit6_apply W h7 op w hw]

theorem lor_low7 (w m : Nat) (hm : m < 128) :
    w ||| m = 128 * (w / 128) + ((w % 128) ||| m) := by
  have hr : w % 128 < 2 ^ 7 := Nat.mod_lt _ (by norm_num)
  have hsplit : w = 2 ^ 7 * (w / 128) ||| w % 128 := by
    rw [← Nat.mul_add_lt_is_or hr]
    norm_num
    omega
  have hlt : (w % 128) ||| m < 2 ^ 7 := Nat.or_lt_two_pow hr (by norm_num; exact hm)
  conv_lhs => rw [hsplit]
  rw [Nat.or_assoc, ← Nat.mul_add_lt_is_or hlt]

theorem land_low7 (w m : Nat) (hm : m < 128) : w &&& m = (w % 128) &&& m := by
  have h1 : (2 ^ 7 - 1) &&& m = m := by
    rw [Nat.and_comm]
    exact Nat.and_pow_two_sub_one_of_lt_two_pow (by norm_num; exact hm)
  conv_lhs => rw [← h1, ← Nat.and_assoc, Nat.and_pow_two_sub_one_eq_mod]

theorem is_marked_eq (w : Nat) : is_marked w = w / 32 % 2 * 32 := by
  have key : ∀ r, r < 128 → r &&& MARK_MASK = r / 32 % 2 * 32 := by decide
  unfold is_marked
  rw [land_low7 w MARK_MASK (by decide), key _ (Nat.mod_lt _ (by norm_num))]
  omega

theorem is_first_eq (w : Nat) : is_first w = w / 64 % 2 * 64 := by
  have key : ∀ r, r < 128 → r &&& FIRST_MASK = r / 64 % 2 * 64 := by decide
  unfold is_first
  rw [land_low7 w FIRST_MASK (by decide), key _ (Nat.mod_lt _ (by norm_num))]
  omega

theorem lor_MARK_MASK (w : Nat) (h : is_marked w = 0) : w ||| MARK_MASK = w + 32 := by
  have key : ∀ r, r < 128 → r / 32 % 2 = 0 → r ||| MARK_MASK = r + 32 := by decide
  rw [is_marked_eq] at h
  rw [lor_low7 w MARK_MASK (by decide), key _ (Nat.mod_lt _ (by norm_num)) (by omega)]
  omega

theorem lor_FIRST_MASK (w : Nat) (h : is_first w = 0) : w ||| FIRST_MASK = w + 64 := by
  have key : ∀ r, r < 128 → r / 64 % 2 = 0 → r ||| FIRST_MASK = r + 64 := by decide
  rw [is_first_eq] at h
  rw [lor_low7 w FIRST_MASK (by decide), key _ (Nat.mod_lt _ (by norm_num)) (by omega)]
  omega

theorem storage_eq_of_mod (x y : Nat) (h : x % 32 = y % 32) : storage x = storage y := by
  rw [← storage_tagex x, ← storage_tagex y, tagex_eq_mod, tagex_eq_mod, h]

theorem consInt_eq (W : Nat) (h7 : 7 ≤ W) (n : Int) :
    consInt W n = wshl W (toWord W n) 7 + 3 :=
  lor_eq_add_of_mod 7 _ _ (wshl_mod_eq_zero W 7 _ h7) (by decide)

theorem mkIndHdr_eq (W : Nat) (hW : W = 32 ∨ W = 64) (n t : Nat)
    (hn : n < 2 ^ (W - 7 - PADBITS W))
    (ht : t = TAG_INTEGER ∨ t = TAG_STRING ∨ t = TAG_FLOAT) :
    mkIndHdr W n t = n * 2 ^ (7 + PADBITS W) + (t + 16) := by
  have hlow : t ||| STG_LOCAL = t + 16 ∧ t + 16 < 2 ^ 7 := by
    rcases ht with rfl | rfl | rfl <;> decide
  unfold mkIndHdr
  rw [Nat.or_assoc, hlow.1]
  rcases hW with rfl | rfl
  · have hP : PADBITS 32 = 2 := by decide
    rw [hP] at hn ⊢
    have ha : wshl 32 n (LMASK_BITS + 2) = n * 512 := by
      unfold wshl LMASK_BITS
      rw [Nat.shiftLeft_eq]
      norm_num at *
      omega
    rw [ha, lor_eq_add_of_mod 7 _ _ (by norm_num; omega) hlow.2]
    norm_num
  · have hP : PADBITS 64 = 3 := by decide
    rw [hP] at hn ⊢
    have ha : wshl 64 n (LMASK_BITS + 3) = n * 1024 := by
      unfold wshl LMASK_BITS
      rw [Nat.shiftLeft_eq]
      norm_num at *
      omega
    rw [ha, lor_eq_add_of_mod 7 _ _ (by norm_num; omega) hlow.2]
    norm_num

/-! ## C1: inline integers -/

/-- C1: for a word of 32 or 64 bits and every integer `n` with
`-2^(W-8) ≤ n ≤ 2^(W-8)-1`, decoding the inline encoding gives `n` back:
`valInt(consInt(n)) = n`. -/
theorem valInt_consInt (W : Nat) (hW : W = 32 ∨ W = 64) (n : Int)
    (hlo : -(2 : Int) ^ (W - 8) ≤ n) (hhi : n ≤ (2 : Int) ^ (W - 8) - 1) :
    valInt W (consInt W n) = n := by
  have h3 : TAG_INTEGER < 2 ^ 7 := by decide
  have hm : wshl W (toWord W n) 7 % 2 ^ 7 = 0 :=
    wshl_mod_eq_zero W 7 _ (by rcases hW with rfl | rfl <;> norm_num)
  unfold valInt consInt
  rw [lor_eq_add_of_mod 7 _ _ hm h3, Int.shiftRight_eq_div_pow]
  rcases hW with rfl | rfl <;>
  · unfold wshl toWord toLong TAG_INTEGER at *
    rw [Nat.shiftLeft_eq] at *
    norm_num at *
    omega

/-- Witness for C1 at the lower boundary `-2^24` of the 32-bit range. -/
theorem valInt_consInt_witness : valInt 32 (consInt 32 (-16777216)) = -16777216 :=
  valInt_consInt 32 (Or.inl rfl) (-16777216) (by norm_num) (by norm_num)

/-! ## C2: tag and storage are independent of the GC bits -/

/-- C2: for a word of 32 or 64 bits, any sequence of `set_marked`, `set_first`,
`clear_marked`, `clear_first` and `clear_both` leaves `tag`, `storage` and
`tagex` of the cell unchanged; `tag` is one of `0..7` and `storage` is one of
`STG_STATIC`, `STG_GLOBAL`, `STG_LOCAL`, `STG_RESERVED`. -/
theorem tag_storage_applyGcOps (W : Nat) (hW : W = 32 ∨ W = 64) (ops : List GcOp)
    (w : Nat) :
    tag (applyGcOps W ops w) = tag w ∧
    storage (applyGcOps W ops w) = storage w ∧
    tagex (applyGcOps W ops w) = tagex w ∧
    tag w ≤ 7 ∧
    (storage w = STG_STATIC ∨ storage w = STG_GLOBAL ∨ storage w = STG_LOCAL ∨
      storage w = STG_RESERVED) := by
  have h := tagex_applyGcOps W hW ops w
  refine ⟨?_, ?_, h, ?_, storage_cases w⟩
  · rw [← tag_tagex, h, tag_tagex]
  · rw [← storage_tagex, h, storage_tagex]
  · rw [tag_eq_mod]; omega

/-- Witness for C2: a marked 32-bit reference word whose mark is cleared and
whose first bit is then set. -/
theorem tag_storage_applyGcOps_witness :
    tag (applyGcOps 32 [GcOp.clearMarked, GcOp.setFirst] 0x12F) = tag 0x12F ∧
    storage (applyGcOps 32 [GcOp.clearMarked, GcOp.setFirst] 0x12F) = storage 0x12F ∧
    tagex (applyGcOps 32 [GcOp.clearMarked, GcOp.setFirst] 0x12F) = tagex 0x12F ∧
    tag 0x12F ≤ 7 ∧
    (storage 0x12F = STG_STATIC ∨ storage 0x12F = STG_GLOBAL ∨ storage 0x12F = STG_LOCAL ∨
      storage 0x12F = STG_RESERVED) :=
  tag_storage_applyGcOps 32 (Or.inl rfl) [GcOp.clearMarked, GcOp.setFirst] 0x12F

/-! ## C3: dereferencing -/

/-- C3: if cells `c 0 .. c k` form a chain (for `i < k` the word at `c i` is
a reference and `unRef` of it is `c (i+1)`) and the word at `c k` is not a
reference, then `deRef` started at `c 0` stops after exactly `k` executions
of the loop body with `p = c k`: any fuel above `k` gives that result, no
smaller fuel gives a result, and the word at the returned cell is not a
reference. -/
theorem deRef_chain (W : Nat) (base mem c : Nat → Nat) (k : Nat)
    (hchain : ∀ i, i < k → isRef (mem (c i)) = true ∧ unRef W base (mem (c i)) = c (i + 1))
    (hend : isRef (mem (c k)) = false) :
    (∀ fuel, k < fuel → deRef W base mem fuel (c 0) = some (c k, k)) ∧
    (∀ fuel, fuel ≤ k → deRef W base mem fuel (c 0) = none) ∧
    isRef (mem (c k)) = false := by
  refine ⟨?_, ?_, hend⟩
  · intro fuel hf
    have h := deRefLoop_chain W base mem c k hchain hend k 0 0 fuel (by omega) hf
    simpa [deRef] using h
  · intro fuel hf
    exact deRefLoop_short W base mem c k hchain fuel 0 0 (by omega)

/-- Witness for C3: a 32-bit store in which cell 100 refers to cell 200, cell
200 refers to cell 300 and cell 300 holds an unbound variable. -/
theorem deRef_chain_witness :
    deRef 32 (fun _ => 0) (fun a => if a = 100 then 6415 else if a = 200 then 9615 else 0)
      3 100 = some (300, 2) :=
  (deRef_chain 32 (fun _ => 0)
    (fun a => if a = 100 then 6415 else if a = 200 then 9615 else 0)
    (fun i => 100 * (i + 1)) 2 (by decide) (by decide)).1 3 (by decide)

/-! ## C4: pointer words -/

/-- C4: for a word of 32 or 64 bits, a word `ts` made only of tag and storage
bits and an address `p` whose offset from `base_addresses[ts & STG_MASK]` lies
in `0 .. MAXTAGGEDPTR`, the word `w = consPtr(p, ts)` has `valPtr(w) = p`,
`tag(w) = ts & TAG_MASK` and `storage(w) = ts & STG_MASK`; for the reference
constructors, `unRef(makeRefG(p)) = p` and `unRefL(makeRefL(p)) = p`, and both
words satisfy `isRef`. -/
theorem valPtr_consPtr (W : Nat) (hW : W = 32 ∨ W = 64) (base : Nat → Nat) (p ts : Nat)
    (hp : p < 2 ^ W) (hts : ts < 2 ^ W)
    (hbits : ts &&& wnot W (TAG_MASK ||| STG_MASK) = 0)
    (hb : base (ts &&& STG_MASK) ≤ p)
    (hr : p - base (ts &&& STG_MASK) ≤ MAXTAGGEDPTR W) :
    valPtr W base (consPtr W base p ts) = p ∧
    tag (consPtr W base p ts) = ts &&& TAG_MASK ∧
    storage (consPtr W base p ts) = ts &&& STG_MASK ∧
    (ts = (TAG_REFERENCE ||| STG_GLOBAL) →
      unRef W base (makeRefG W base p) = p ∧ isRef (makeRefG W base p) = true) ∧
    (ts = (TAG_REFERENCE ||| STG_LOCAL) →
      unRefL W base (makeRefL W base p) = p ∧ isRef (makeRefL W base p) = true) := by
  have h32 : ts < 32 :=
    lt_32_of_and_wnot W (by rcases hW with rfl | rfl <;> norm_num) ts hts hbits
  have hex := tagex_consPtr W hW base p ts hp h32 hb hr
  have hv := valPtr2_consPtr W hW base p ts hp h32 hb hr
  have htag : tag (consPtr W base p ts) = ts &&& TAG_MASK := by
    rw [← tag_tagex, hex]; rfl
  have hstg : storage (consPtr W base p ts) = ts &&& STG_MASK := by
    rw [← storage_tagex, hex]; rfl
  have hval : valPtr W base (consPtr W base p ts) = p := by
    unfold valPtr
    rw [hstg]
    exact hv
  refine ⟨hval, htag, hstg, ?_, ?_⟩
  · intro h
    subst h
    refine ⟨hval, ?_⟩
    show (tag (consPtr W base p (TAG_REFERENCE ||| STG_GLOBAL)) == TAG_REFERENCE) = true
    rw [htag]
    rfl
  · intro h
    subst h
    refine ⟨hv, ?_⟩
    show (tag (consPtr W base p (TAG_REFERENCE ||| STG_LOCAL)) == TAG_REFERENCE) = true
    rw [htag]
    rfl

/-- Witness for C4: a global reference to address 4100 in a 32-bit store whose
regions all start at address 4096. -/
theorem valPtr_consPtr_witness :
    valPtr 32 (fun _ => 4096) (consPtr 32 (fun _ => 4096) 4100 15) = 4100 ∧
    tag (consPtr 32 (fun _ => 4096) 4100 15) = 15 &&& TAG_MASK ∧
    storage (consPtr 32 (fun _ => 4096) 4100 15) = 15 &&& STG_MASK ∧
    (15 = (TAG_REFERENCE ||| STG_GLOBAL) →
      unRef 32 (fun _ => 4096) (makeRefG 32 (fun _ => 4096) 4100) = 4100 ∧
        isRef (makeRefG 32 (fun _ => 4096) 4100) = true) ∧
    (15 = (TAG_REFERENCE ||| STG_LOCAL) →
      unRefL 32 (fun _ => 4096) (makeRefL 32 (fun _ => 4096) 4100) = 4100 ∧
        isRef (makeRefL 32 (fun _ => 4096) 4100) = true) :=
  valPtr_consPtr 32 (Or.inl rfl) (fun _ => 4096) 4100 15 (by norm_num) (by norm_num)
    (by decide) (by decide) (by decide)

/-! ## C5: relocation of a region -/

/-- C5: let the table `base'` differ from `base` by moving region `s` by `d`
bytes (`base'[s] = base[s] + d` in word arithmetic).  Then for every word `w`
of storage class `s`, `valPtr` under `base'` is `valPtr` under `base` plus `d`,
and for every address `p` and every `ts` of storage class `s`,
`consPtr(p + d, ts)` under `base'` is the same word as `consPtr(p, ts)` under
`base`: stored words need no rewriting. -/
theorem valPtr_rebase (W : Nat) (base base' : Nat → Nat) (d : Int) (s : Nat)
    (hmove : base' s = toWord W ((base s : Int) + d)) :
    (∀ w, storage w = s →
      valPtr W base' w = toWord W ((valPtr W base w : Int) + d)) ∧
    (∀ p ts : Nat, ts &&& STG_MASK = s →
      consPtr W base' (toWord W ((p : Int) + d)) ts = consPtr W base p ts) := by
  constructor
  · intro w hw
    unfold valPtr valPtr2
    rw [hw, hmove]
    zify
    rw [toWord_cast, toWord_cast]
    push_cast
    rw [Int.add_emod_emod, Int.emod_add_emod, add_assoc]
  · intro p ts hts
    unfold consPtr wsub
    rw [hts, hmove, toWord_cast, toWord_cast, ← toWord_emod, ← Int.sub_emod, toWord_emod]
    have hsub : (p : Int) + d - ((base s : Int) + d) = (p : Int) - (base s : Int) := by ring
    rw [hsub]

/-- Witness for C5: the global region of a 32-bit store moves from address 4096
down to address 1024. -/
theorem valPtr_rebase_witness :
    (∀ w, storage w = STG_GLOBAL →
      valPtr 32 (fun _ => 1024) w =
        toWord 32 ((valPtr 32 (fun _ => 4096) w : Int) + (-3072))) ∧
    (∀ p ts : Nat, ts &&& STG_MASK = STG_GLOBAL →
      consPtr 32 (fun _ => 1024) (toWord 32 ((p : Int) + (-3072))) ts =
        consPtr 32 (fun _ => 4096) p ts) :=
  valPtr_rebase 32 (fun _ => 4096) (fun _ => 1024) (-3072) STG_GLOBAL (by decide)

/-! ## C6: the unbound variable -/

/-- C6: `isVar(w)` holds exactly when `w` is the all-zero word; every such
word has tag `TAG_VAR`, storage `STG_STATIC`, both GC bits clear, satisfies
`canBind` (with and without `O_ATTVAR`) and is neither `isAttVar` nor `isRef`. -/
theorem isVar_iff_zero (w : Nat) (attvar : Bool) :
    (isVar w = true ↔ w = 0) ∧
    (isVar w = true →
      tag w = TAG_VAR ∧ storage w = STG_STATIC ∧ is_marked w = 0 ∧ is_first w = 0 ∧
      canBind attvar w = true ∧ isAttVar w = false ∧ isRef w = false) := by
  have hiff : isVar w = true ↔ w = 0 := by simp [isVar]
  refine ⟨hiff, ?_⟩
  intro h
  have h0 := hiff.mp h
  subst h0
  cases attvar <;> decide

/-- Witness for C6 at the all-zero word, in the `O_ATTVAR` build. -/
theorem isVar_iff_zero_witness :
    tag 0 = TAG_VAR ∧ storage 0 = STG_STATIC ∧ is_marked 0 = 0 ∧ is_first 0 = 0 ∧
    canBind true 0 = true ∧ isAttVar 0 = false ∧ isRef 0 = false :=
  (isVar_iff_zero 0 true).2 rfl

/-! ## C7: inline functor arity -/

/-- C7: for a word of 32 or 64 bits, every arity `a < 31` and every index
`n < 2^(W-12)`, the word `MK_FUNCTOR(n, a)` has `arityFunctor = a` for every
functor table, and `indexFunctor = n`. -/
theorem arityFunctor_inline (W : Nat) (hW : W = 32 ∨ W = 64)
    (functor_array : Nat → FunctorDef) (n a : Nat)
    (ha : a < 31) (hn : n < 2 ^ (W - 12)) :
    arityFunctor functor_array (MK_FUNCTOR W n a) = a ∧
    indexFunctor (MK_FUNCTOR W n a) = n := by
  refine ⟨?_, indexFunctor_MK_FUNCTOR W hW n a hn (by omega)⟩
  unfold arityFunctor
  rw [arityFunc_MK_FUNCTOR W hW n a hn (by omega)]
  have hne : a ≠ F_ARITY_MASK := by
    have : F_ARITY_MASK = 31 := by decide
    omega
  simp [hne]

/-- Witness for C7: arity 30 and index 5 on 32 bits, with a table whose
descriptors all say arity 99. -/
theorem arityFunctor_inline_witness :
    arityFunctor (fun _ => ⟨0, 99⟩) (MK_FUNCTOR 32 5 30) = 30 ∧
    indexFunctor (MK_FUNCTOR 32 5 30) = 5 :=
  arityFunctor_inline 32 (Or.inl rfl) (fun _ => ⟨0, 99⟩) 5 30 (by norm_num) (by norm_num)

/-! ## C8: the arity field 31 -/

/-- C8, as stated, fails: on 32 bits, with a table whose descriptors have
arity 32, `arityFunctor(MK_FUNCTOR(0, 31))` is 32 and not 31; with a table
whose descriptors have arity 31 it is 31, so the result depends on the
descriptor. -/
theorem arityFunctor_31_not_inline :
    arityFunctor (fun _ => ⟨0, 32⟩) (MK_FUNCTOR 32 0 31) = 32 ∧
    arityFunctor (fun _ => ⟨0, 32⟩) (MK_FUNCTOR 32 0 31) ≠ 31 ∧
    arityFunctor (fun _ => ⟨0, 31⟩) (MK_FUNCTOR 32 0 31) ≠
      arityFunctor (fun _ => ⟨0, 32⟩) (MK_FUNCTOR 32 0 31) := by
  decide

/-- C8, amended: the arity field 31 is the sentinel `F_ARITY_MASK`, so for
every index `n < 2^(W-12)` the arity of `MK_FUNCTOR(n, 31)` is read from the
descriptor at index `n`: it is 31 exactly when that descriptor has arity 31,
and two tables give the same arity exactly when their descriptors at `n`
have the same arity. -/
theorem arityFunctor_31_descriptor (W : Nat) (hW : W = 32 ∨ W = 64)
    (functor_array functor_array' : Nat → FunctorDef) (n : Nat)
    (hn : n < 2 ^ (W - 12)) :
    arityFunctor functor_array (MK_FUNCTOR W n 31) = (functor_array n).arity ∧
    (arityFunctor functor_array (MK_FUNCTOR W n 31) = 31 ↔ (functor_array n).arity = 31) ∧
    (arityFunctor functor_array (MK_FUNCTOR W n 31) =
        arityFunctor functor_array' (MK_FUNCTOR W n 31) ↔
      (functor_array n).arity = (functor_array' n).arity) := by
  rw [arityFunctor_sentinel W hW functor_array n hn,
    arityFunctor_sentinel W hW functor_array' n hn]
  exact ⟨rfl, Iff.rfl, Iff.rfl⟩

/-- Witness for C8 amended: index 3 on 64 bits, one table with arity 31 and
one with arity 40 in every descriptor. -/
theorem arityFunctor_31_descriptor_witness :
    arityFunctor (fun _ => ⟨0, 31⟩) (MK_FUNCTOR 64 3 31) = 31 :=
  (arityFunctor_31_descriptor 64 (Or.inr rfl) (fun _ => ⟨0, 31⟩) (fun _ => ⟨0, 40⟩) 3
    (by norm_num)).1

/-! ## C9: the sentinel arity path -/

/-- C9: for a word of 32 or 64 bits, every index `n < 2^(W-12)` and every
functor table whose descriptor at index `n` has arity `A`, the word
`MK_FUNCTOR(n, F_ARITY_MASK)` has `arityFunctor = A` and `indexFunctor = n`. -/
theorem arityFunctor_via_descriptor (W : Nat) (hW : W = 32 ∨ W = 64)
    (functor_array : Nat → FunctorDef) (n A : Nat)
    (hn : n < 2 ^ (W - 12)) (hA : (functor_array n).arity = A) :
    arityFunctor functor_array (MK_FUNCTOR W n F_ARITY_MASK) = A ∧
    indexFunctor (MK_FUNCTOR W n F_ARITY_MASK) = n := by
  have hmask : F_ARITY_MASK = 31 := by decide
  rw [hmask]
  exact ⟨(arityFunctor_sentinel W hW functor_array n hn).trans hA,
    indexFunctor_MK_FUNCTOR W hW n 31 hn (by norm_num)⟩

/-- Witness for C9: a functor of arity 32 stored at index 7 of a 32-bit
table decodes to arity 32. -/
theorem arityFunctor_via_descriptor_witness :
    arityFunctor (fun i => if i = 7 then ⟨1, 32⟩ else ⟨0, 0⟩)
        (MK_FUNCTOR 32 7 F_ARITY_MASK) = 32 ∧
    indexFunctor (MK_FUNCTOR 32 7 F_ARITY_MASK) = 7 :=
  arityFunctor_via_descriptor 32 (Or.inl rfl)
    (fun i => if i = 7 then ⟨1, 32⟩ else ⟨0, 0⟩) 7 32 (by norm_num) (by decide)

/-! ## C10: string headers -/

/-- C10: for a word of 32 or 64 bits with `ws = sizeof(word)`, every byte
length `len` whose word count `n = len / ws + 1` fits the size field
(`n < 2^(W-7-PADBITS)`) and `pad = (ws - len % ws) % ws`, the header
`h = mkStrHdr(n, pad)` gives the byte length back:
`wsizeofInd(h) * ws - padHdr(h) = len` (and the subtraction does not
underflow); when `len % ws = 0` the stored pad field is 0 and `padHdr(h)` is
`ws`. -/
theorem strHdr_length (W : Nat) (hW : W = 32 ∨ W = 64) (len p : Nat)
    (hn : len / sizeofWord W + 1 < 2 ^ (W - 7 - PADBITS W)) :
    wsizeofInd W (mkStrHdr W (len / sizeofWord W + 1) p
        ((sizeofWord W - len % sizeofWord W) % sizeofWord W)) * sizeofWord W
      - padHdr W (mkStrHdr W (len / sizeofWord W + 1) p
        ((sizeofWord W - len % sizeofWord W) % sizeofWord W)) = len ∧
    padHdr W (mkStrHdr W (len / sizeofWord W + 1) p
        ((sizeofWord W - len % sizeofWord W) % sizeofWord W)) ≤
      wsizeofInd W (mkStrHdr W (len / sizeofWord W + 1) p
        ((sizeofWord W - len % sizeofWord W) % sizeofWord W)) * sizeofWord W ∧
    (len % sizeofWord W = 0 →
      (mkStrHdr W (len / sizeofWord W + 1) p
        ((sizeofWord W - len % sizeofWord W) % sizeofWord W) >>> LMASK_BITS)
          &&& PADMASK W = 0 ∧
      padHdr W (mkStrHdr W (len / sizeofWord W + 1) p
        ((sizeofWord W - len % sizeofWord W) % sizeofWord W)) = sizeofWord W) := by
  rcases hW with rfl | rfl
  · have hws : sizeofWord 32 = 4 := by decide
    have hP : PADBITS 32 = 2 := by decide
    rw [hP] at hn
    rw [hws] at hn ⊢
    have hpad : (4 - len % 4) % 4 < 4 := Nat.mod_lt _ (by norm_num)
    rw [mkStrHdr_eq_32 _ p _ (by norm_num at hn ⊢; exact hn) hpad]
    unfold padHdr
    rw [padField_eq_32, wsizeofInd_eq_32, hws]
    split_ifs <;> omega
  · have hws : sizeofWord 64 = 8 := by decide
    have hP : PADBITS 64 = 3 := by decide
    rw [hP] at hn
    rw [hws] at hn ⊢
    have hpad : (8 - len % 8) % 8 < 8 := Nat.mod_lt _ (by norm_num)
    rw [mkStrHdr_eq_64 _ p _ (by norm_num at hn ⊢; exact hn) hpad]
    unfold padHdr
    rw [padField_eq_64, wsizeofInd_eq_64, hws]
    split_ifs <;> omega

/-- Witness for C10: a string of 8 bytes on 32 bits, remainder 0, stored in 3
words with pad field 0. -/
theorem strHdr_length_witness :
    wsizeofInd 32 (mkStrHdr 32 (8 / sizeofWord 32 + 1) 0
        ((sizeofWord 32 - 8 % sizeofWord 32) % sizeofWord 32)) * sizeofWord 32
      - padHdr 32 (mkStrHdr 32 (8 / sizeofWord 32 + 1) 0
        ((sizeofWord 32 - 8 % sizeofWord 32) % sizeofWord 32)) = 8 :=
  (strHdr_length 32 (Or.inl rfl) 8 0 (by decide)).1

/-! ## C11: the decoded pad count -/

/-- C11: for a word of 32 or 64 bits and every header word `iw`, `padHdr(iw)`
lies in `1 .. sizeof(word)`; it is the pad field `(iw >> 7) & PADMASK` when
that field is not 0 and `sizeof(long)` when it is 0; and for every `p` in
`1 .. sizeof(word)`, `padHdr(mkPadHdr(p)) = p`. -/
theorem padHdr_range (W : Nat) (hW : W = 32 ∨ W = 64) (iw p : Nat)
    (hp1 : 1 ≤ p) (hp2 : p ≤ sizeofWord W) :
    1 ≤ padHdr W iw ∧ padHdr W iw ≤ sizeofWord W ∧
    ((iw >>> LMASK_BITS) &&& PADMASK W ≠ 0 →
      padHdr W iw = (iw >>> LMASK_BITS) &&& PADMASK W) ∧
    ((iw >>> LMASK_BITS) &&& PADMASK W = 0 → padHdr W iw = sizeofWord W) ∧
    padHdr W (mkPadHdr W p) = p := by
  have hmk := mkPadHdr_eq W hW p
  rcases hW with rfl | rfl
  · have hs : sizeofWord 32 = 4 := by decide
    rw [hs] at hp2 hmk ⊢
    unfold padHdr
    rw [hmk, padField_eq_32, padField_eq_32, hs]
    refine ⟨?_, ?_, ?_, ?_, ?_⟩ <;> split_ifs <;> omega
  · have hs : sizeofWord 64 = 8 := by decide
    rw [hs] at hp2 hmk ⊢
    unfold padHdr
    rw [hmk, padField_eq_64, padField_eq_64, hs]
    refine ⟨?_, ?_, ?_, ?_, ?_⟩ <;> split_ifs <;> omega

/-- Witness for C11: on 32 bits, a header with pad field 0 and the pad count
4, which `mkPadHdr` stores as 0. -/
theorem padHdr_range_witness :
    padHdr 32 0x215 = sizeofWord 32 ∧ padHdr 32 (mkPadHdr 32 4) = 4 :=
  ⟨(padHdr_range 32 (Or.inl rfl) 0x215 4 (by decide) (by decide)).2.2.2.1 (by decide),
    (padHdr_range 32 (Or.inl rfl) 0x215 4 (by decide) (by decide)).2.2.2.2⟩

/-! ## C12: classification of integers -/

/-- C12: for every store, base table and word `w` with tag `TAG_INTEGER`,
with `s = wsizeofIndirect(w)` and `k = sizeof(int64_t)/sizeof(word)`: if
`storage(w) = STG_INLINE` then `isTaggedInt(w)` holds and neither `isBignum(w)`
nor `isMPZNum(w)`; otherwise `isTaggedInt(w)` fails, `isBignum(w)` holds iff
`s = k` and `isMPZNum(w)` holds iff `s > k`.  For any word, no two of the three
tests hold together, and a second store with the same header word gives the
same answers. -/
theorem integer_classification (W : Nat) (base mem mem' : Nat → Nat) (w : Nat) :
    (tag w = TAG_INTEGER → storage w = STG_INLINE →
      isTaggedInt w = true ∧ isBignum W base mem w = false ∧
        isMPZNum W base mem w = false) ∧
    (tag w = TAG_INTEGER → storage w ≠ STG_INLINE →
      isTaggedInt w = false ∧
      (isBignum W base mem w = true ↔ wsizeofIndirect W base mem w = int64Words W) ∧
      (isMPZNum W base mem w = true ↔ wsizeofIndirect W base mem w > int64Words W)) ∧
    ¬ (isTaggedInt w = true ∧ isBignum W base mem w = true) ∧
    ¬ (isTaggedInt w = true ∧ isMPZNum W base mem w = true) ∧
    ¬ (isBignum W base mem w = true ∧ isMPZNum W base mem w = true) ∧
    (mem' (addressIndirect W base w) = mem (addressIndirect W base w) →
      isBignum W base mem' w = isBignum W base mem w ∧
      isMPZNum W base mem' w = isMPZNum W base mem w) := by
  have htagged := isTaggedInt_iff_aux w
  refine ⟨?_, ?_, ?_, ?_, ?_, ?_⟩
  · intro htag hs
    have hint : isInteger w = true := by simp [isInteger, htag]
    refine ⟨htagged.mpr ⟨hint, hs⟩, ?_, ?_⟩ <;> simp [isBignum, isMPZNum, hs]
  · intro htag hs
    have hint : isInteger w = true := by simp [isInteger, htag]
    refine ⟨?_, ?_, ?_⟩
    · cases h : isTaggedInt w
      · rfl
      · exact absurd (htagged.mp h).2 hs
    · simp [isBignum, hint, hs]
    · simp [isMPZNum, hint, hs]
  · rintro ⟨h1, h2⟩
    have hs := (htagged.mp h1).2
    simp [isBignum, hs] at h2
  · rintro ⟨h1, h2⟩
    have hs := (htagged.mp h1).2
    simp [isMPZNum, hs] at h2
  · rintro ⟨h1, h2⟩
    simp only [isBignum, isMPZNum, Bool.and_eq_true, beq_iff_eq, decide_eq_true_eq] at h1 h2
    omega
  · intro hhdr
    have hsz : wsizeofIndirect W base mem' w = wsizeofIndirect W base mem w := by
      unfold wsizeofIndirect
      rw [hhdr]
    unfold isBignum isMPZNum
    rw [hsz]
    exact ⟨rfl, rfl⟩

/-- Witness for C12: on 32 bits, the word 2059 is an integer in the global
region pointing to address 64, where the header 1043 has size field 2; it is
a bignum. -/
theorem integer_classification_witness :
    isBignum 32 (fun _ => 0) (fun a => if a = 64 then 1043 else 0) 2059 = true :=
  ((integer_classification 32 (fun _ => 0) (fun a => if a = 64 then 1043 else 0)
    (fun a => if a = 64 then 1043 else 0) 2059).2.1 (by decide) (by decide)).2.1.mpr
    (by decide)

/-! ## C13: the GC-bit macros -/

/-- C13: for a word `w` of 32 or 64 bits, `set_marked` sets bit 5
(`MARK_MASK`) and `set_first` bit 6 (`FIRST_MASK`), `clear_marked` and
`clear_first` clear that bit, `clear_both` clears both, and every other bit
of `w` is unchanged; after any sequence of the macros `is_marked` is non-zero
exactly when the last macro acting on the mark bit set it (and as in `w` when
there was none), likewise `is_first`; each macro applied twice gives the same
word as applied once. -/
theorem gc_mutators_frame (W : Nat) (hW : W = 32 ∨ W = 64) (w : Nat) (ops : List GcOp)
    (hw : w < 2 ^ W) :
    (∀ i, (set_marked w).testBit i = (w.testBit i || decide (i = 5))) ∧
    (∀ i, (set_first w).testBit i = (w.testBit i || decide (i = 6))) ∧
    (∀ i, (clear_marked W w).testBit i = (w.testBit i && !decide (i = 5))) ∧
    (∀ i, (clear_first W w).testBit i = (w.testBit i && !decide (i = 6))) ∧
    (∀ i, (clear_both W w).testBit i = (w.testBit i && !decide (i = 5 ∨ i = 6))) ∧
    decide (is_marked (applyGcOps W ops w) ≠ 0) =
      markAfterOps ops (decide (is_marked w ≠ 0)) ∧
    decide (is_first (applyGcOps W ops w) ≠ 0) =
      firstAfterOps ops (decide (is_first w ≠ 0)) ∧
    (∀ op : GcOp, op.apply W (op.apply W w) = op.apply W w) := by
  have h7 : 7 ≤ W := by rcases hW with rfl | rfl <;> norm_num
  refine ⟨testBit_set_marked w, testBit_set_first w, testBit_clear_marked W h7 w hw,
    testBit_clear_first W h7 w hw, testBit_clear_both W h7 w hw,
    is_marked_applyGcOps W h7 ops w hw, is_first_applyGcOps W h7 ops w hw, ?_⟩
  intro op
  cases op <;>
    simp only [GcOp.apply, set_marked, set_first, clear_marked, clear_first, clear_both,
      Nat.or_assoc, Nat.and_assoc, Nat.or_self, Nat.and_self]

/-- Witness for C13: a 32-bit word with the mark bit set, cleared by
`clear_both` and then given the first bit. -/
theorem gc_mutators_frame_witness :
    decide (is_marked (applyGcOps 32 [GcOp.clearBoth, GcOp.setFirst] 0x12F) ≠ 0) =
      markAfterOps [GcOp.clearBoth, GcOp.setFirst] (decide (is_marked 0x12F ≠ 0)) :=
  (gc_mutators_frame 32 (Or.inl rfl) 0x12F [GcOp.clearBoth, GcOp.setFirst]
    (by norm_num)).2.2.2.2.2.1

/-! ## C14: binding a constant -/

/-- C14: in the `O_ATTVAR` build, if the word at `p` is the unbound variable
then `bindConst(p, c)` leaves `c` at `p`, changes no other cell and makes
exactly one call, `Trail(p)`; otherwise it writes no cell and makes exactly
one call, `assignAttVar(p, &c)`. -/
theorem bindConst_dispatch (st : BindState) (p c : Nat) :
    (isVar (st.mem p) = true →
      (bindConst true st p c).mem p = c ∧
      (∀ a, a ≠ p → (bindConst true st p c).mem a = st.mem a) ∧
      (bindConst true st p c).calls = st.calls ++ [Call.Trail p]) ∧
    (isVar (st.mem p) = false →
      (bindConst true st p c).mem = st.mem ∧
      (bindConst true st p c).calls = st.calls ++ [Call.assignAttVar p c]) := by
  constructor
  · intro h
    have hb : bindConst true st p c =
        { mem := fun a => if a = p then c else st.mem a,
          calls := st.calls ++ [Call.Trail p] } := by
      simp [bindConst, h]
    rw [hb]
    refine ⟨by simp, ?_, rfl⟩
    intro a ha
    simp [ha]
  · intro h
    have hb : bindConst true st p c =
        { mem := st.mem, calls := st.calls ++ [Call.assignAttVar p c] } := by
      simp [bindConst, h]
    rw [hb]
    exact ⟨rfl, rfl⟩

/-- Witness for C14: binding cell 8 of an all-zero store to the word 387
writes that cell and calls `Trail(8)`. -/
theorem bindConst_dispatch_witness :
    (bindConst true ⟨fun _ => 0, []⟩ 8 387).mem 8 = 387 ∧
    (bindConst true ⟨fun _ => 0, []⟩ 8 387).calls = [] ++ [Call.Trail 8] :=
  ⟨((bindConst_dispatch ⟨fun _ => 0, []⟩ 8 387).1 rfl).1,
    ((bindConst_dispatch ⟨fun _ => 0, []⟩ 8 387).1 rfl).2.2⟩

/-! ## C15: the range of inline integers -/

/-- C15, as stated, fails: on 32 bits `2^24` is below `MAXTAGGEDPTR`, but
`valInt(consInt(2^24))` is `-2^24`. -/
theorem valInt_consInt_below_MAXTAGGEDPTR :
    (16777216 : Int) ≤ (MAXTAGGEDPTR 32 : Int) ∧
    valInt 32 (consInt 32 16777216) = -16777216 ∧
    valInt 32 (consInt 32 16777216) ≠ 16777216 := by
  decide

/-- C15, amended: for a word of 32 or 64 bits, `valInt(consInt(n)) = n` holds
exactly for `-2^(W-8) ≤ n ≤ 2^(W-8)-1`; `MAXTAGGEDPTR` is `2^(W-5)-1`, which
is above that range. -/
theorem valInt_consInt_iff_range (W : Nat) (hW : W = 32 ∨ W = 64) (n : Int) :
    (valInt W (consInt W n) = n ↔
      (-(2 : Int) ^ (W - 8) ≤ n ∧ n ≤ (2 : Int) ^ (W - 8) - 1)) ∧
    MAXTAGGEDPTR W = 2 ^ (W - 5) - 1 ∧
    2 ^ (W - 8) - 1 < MAXTAGGEDPTR W := by
  have h7 : 7 ≤ W := by rcases hW with rfl | rfl <;> norm_num
  refine ⟨?_, ?_, ?_⟩
  · unfold valInt
    rw [consInt_eq W h7, Int.shiftRight_eq_div_pow]
    rcases hW with rfl | rfl <;>
    · unfold wshl toWord toLong
      rw [Nat.shiftLeft_eq]
      norm_num
      constructor
      · intro h
        omega
      · intro h
        omega
  · rcases hW with rfl | rfl <;> decide
  · rcases hW with rfl | rfl <;> decide

/-- Witness for C15 amended: on 64 bits the integer `-2^56` is inline. -/
theorem valInt_consInt_iff_range_witness :
    valInt 64 (consInt 64 (-72057594037927936)) = -72057594037927936 :=
  (valInt_consInt_iff_range 64 (Or.inr rfl) (-72057594037927936)).1.mpr
    ⟨by norm_num, by norm_num⟩

/-! ## C16: indirect headers -/

/-- C16, as stated, fails: the 32-bit header `mkIndHdr(2, TAG_INTEGER)` of a
two-word integer is 1043; its storage is `STG_LOCAL` (0x2 << 3), not
`STG_RESERVED` (0x3 << 3). -/
theorem mkIndHdr_not_reserved :
    mkIndHdr 32 2 TAG_INTEGER = 1043 ∧
    storage (mkIndHdr 32 2 TAG_INTEGER) = STG_LOCAL ∧
    storage (mkIndHdr 32 2 TAG_INTEGER) ≠ STG_RESERVED := by
  decide

/-- C16, amended: for a word of 32 or 64 bits, every size `n` that fits the
size field and every tag `t` among `TAG_INTEGER`, `TAG_STRING`, `TAG_FLOAT`,
the header `mkIndHdr(n, t)` carries the normal tag and the storage specifier
`STG_LOCAL`: `tag = t`, `storage = STG_LOCAL` (0x2 << 3, which is not
`STG_RESERVED`), and `wsizeofInd = n`. -/
theorem mkIndHdr_storage (W : Nat) (hW : W = 32 ∨ W = 64) (n t : Nat)
    (hn : n < 2 ^ (W - 7 - PADBITS W))
    (ht : t = TAG_INTEGER ∨ t = TAG_STRING ∨ t = TAG_FLOAT) :
    tag (mkIndHdr W n t) = t ∧
    storage (mkIndHdr W n t) = STG_LOCAL ∧
    storage (mkIndHdr W n t) ≠ STG_RESERVED ∧
    wsizeofInd W (mkIndHdr W n t) = n := by
  have heq := mkIndHdr_eq W hW n t hn ht
  have ht8 : t < 8 := by rcases ht with rfl | rfl | rfl <;> decide
  have hstg : storage (mkIndHdr W n t) = STG_LOCAL := by
    have h16 : storage (mkIndHdr W n t) = storage (t + 16) := by
      apply storage_eq_of_mod
      rw [heq]
      rcases hW with rfl | rfl
      · have hP : PADBITS 32 = 2 := by decide
        rw [hP]; norm_num; omega
      · have hP : PADBITS 64 = 3 := by decide
        rw [hP]; norm_num; omega
    rw [h16]
    rcases ht with rfl | rfl | rfl <;> decide
  refine ⟨?_, hstg, ?_, ?_⟩
  · rw [tag_eq_mod, heq]
    rcases hW with rfl | rfl
    · have hP : PADBITS 32 = 2 := by decide
      rw [hP]; norm_num; omega
    · have hP : PADBITS 64 = 3 := by decide
      rw [hP]; norm_num; omega
  · rw [hstg]; decide
  · rcases hW with rfl | rfl
    · have hP : PADBITS 32 = 2 := by decide
      rw [wsizeofInd_eq_32, heq, hP]; norm_num; omega
    · have hP : PADBITS 64 = 3 := by decide
      rw [wsizeofInd_eq_64, heq, hP]; norm_num; omega

/-- Witness for C16 amended: the 64-bit header of a three-word string. -/
theorem mkIndHdr_storage_witness :
    tag (mkIndHdr 64 3 TAG_STRING) = TAG_STRING ∧
    storage (mkIndHdr 64 3 TAG_STRING) = STG_LOCAL ∧
    storage (mkIndHdr 64 3 TAG_STRING) ≠ STG_RESERVED ∧
    wsizeofInd 64 (mkIndHdr 64 3 TAG_STRING) = 3 :=
  mkIndHdr_storage 64 (Or.inr rfl) 3 TAG_STRING (by decide) (Or.inr (Or.inl rfl))

/-! ## C17: atoms and functors -/

/-- C17: for a word of 32 or 64 bits, every index `n < 2^(W-12)` and every
arity field `a ≤ 31`, the word `MK_FUNCTOR(n, a)` has tag `TAG_ATOM` and
storage `STG_GLOBAL`, and `isAtom` rejects it; for every word `w`, `isAtom(w)`
holds exactly when `tag(w) = TAG_ATOM` and `storage(w) = STG_STATIC`. -/
theorem isAtom_rejects_functor (W : Nat) (hW : W = 32 ∨ W = 64) (n a w : Nat)
    (ha : a ≤ 31) (hn : n < 2 ^ (W - 12)) :
    tag (MK_FUNCTOR W n a) = TAG_ATOM ∧
    storage (MK_FUNCTOR W n a) = STG_GLOBAL ∧
    isAtom (MK_FUNCTOR W n a) = false ∧
    (isAtom w = true ↔ (tag w = TAG_ATOM ∧ storage w = STG_STATIC)) := by
  have hex : tagex (MK_FUNCTOR W n a) = 12 := by
    rw [MK_FUNCTOR_eq W hW n a hn (by omega), tagex_eq_mod]
    omega
  refine ⟨?_, ?_, ?_, ?_⟩
  · rw [← tag_tagex, hex]; decide
  · rw [← storage_tagex, hex]; decide
  · unfold isAtom
    rw [hex]; decide
  · have key : ∀ x, x < 32 →
        ((x == TAG_ATOM) = true ↔ (tag x = TAG_ATOM ∧ storage x = STG_STATIC)) := by
      decide
    have hx : tagex w < 32 := by rw [tagex_eq_mod]; exact Nat.mod_lt _ (by norm_num)
    have := key (tagex w) hx
    rw [tag_tagex, storage_tagex] at this
    exact this

/-- Witness for C17: the 32-bit functor word of index 9 with the sentinel
arity field, and an atom word of index 9. -/
theorem isAtom_rejects_functor_witness :
    isAtom (MK_FUNCTOR 32 9 31) = false ∧
    (isAtom 1156 = true ↔ (tag 1156 = TAG_ATOM ∧ storage 1156 = STG_STATIC)) :=
  ⟨(isAtom_rejects_functor 32 (Or.inl rfl) 9 31 1156 (by norm_num) (by norm_num)).2.2.1,
    (isAtom_rejects_functor 32 (Or.inl rfl) 9 31 1156 (by norm_num) (by norm_num)).2.2.2⟩

/-! ## C18: the test for an inline integer -/

/-- C18: for every word `w`, the one-comparison test `isTaggedInt(w)` gives
the same answer as the documented form `isInteger(w) && storage(w) ==
STG_INLINE`: it holds if and only if `isInteger(w)` holds and `storage(w)` is
`STG_INLINE`. -/
theorem isTaggedInt_eq_documented (w : Nat) :
    isTaggedInt w = isTaggedInt_documented w ∧
    (isTaggedInt w = true ↔ (isInteger w = true ∧ storage w = STG_INLINE)) := by
  have h := isTaggedInt_iff_aux w
  refine ⟨?_, h⟩
  rw [Bool.eq_iff_iff, h]
  simp [isTaggedInt_documented]

/-! ## C19: freshly constructed words -/

/-- C19: for a word of 32 or 64 bits, `consInt(n)` has both GC bits clear and
satisfies `isTaggedInt` for every integer `n`, in range or not; and for `ts`
made only of tag and storage bits and an address `p` whose offset from
`base_addresses[ts & STG_MASK]` is a multiple of 4 and at most `MAXTAGGEDPTR`,
`consPtr(p, ts)` has both GC bits clear. -/
theorem fresh_words_unmarked (W : Nat) (hW : W = 32 ∨ W = 64) (base : Nat → Nat)
    (n : Int) (p ts : Nat) (hp : p < 2 ^ W) (hts : ts < 2 ^ W)
    (hbits : ts &&& wnot W (TAG_MASK ||| STG_MASK) = 0)
    (hb : base (ts &&& STG_MASK) ≤ p)
    (h4 : (p - base (ts &&& STG_MASK)) % 4 = 0)
    (hr : p - base (ts &&& STG_MASK) ≤ MAXTAGGEDPTR W) :
    is_marked (consInt W n) = 0 ∧ is_first (consInt W n) = 0 ∧
    isTaggedInt (consInt W n) = true ∧
    is_marked (consPtr W base p ts) = 0 ∧ is_first (consPtr W base p ts) = 0 := by
  have h7 : 7 ≤ W := by rcases hW with rfl | rfl <;> norm_num
  have h32 : ts < 32 := lt_32_of_and_wnot W (by omega) ts hts hbits
  have hm : wshl W (toWord W n) 7 % 128 = 0 := wshl_mod_eq_zero W 7 _ h7
  have hc := consPtr_eq W hW base p ts hp h32 hb hr
  rw [is_marked_eq, is_first_eq, is_marked_eq, is_first_eq, hc, consInt_eq W h7]
  generalize wshl W (toWord W n) 7 = y at hm ⊢
  generalize p - base (ts &&& STG_MASK) = off at h4 ⊢
  refine ⟨by omega, by omega, ?_, by omega, by omega⟩
  unfold isTaggedInt
  rw [tagex_eq_mod]
  have h3 : (y + 3) % 32 = 3 := by omega
  rw [h3]
  decide

/-- Witness for C19: the integer `-5` and a global reference to address 4100
in a 32-bit store whose regions start at address 4096. -/
theorem fresh_words_unmarked_witness :
    is_marked (consInt 32 (-5)) = 0 ∧ is_first (consInt 32 (-5)) = 0 ∧
    isTaggedInt (consInt 32 (-5)) = true ∧
    is_marked (consPtr 32 (fun _ => 4096) 4100 15) = 0 ∧
    is_first (consPtr 32 (fun _ => 4096) 4100 15) = 0 :=
  fresh_words_unmarked 32 (Or.inl rfl) (fun _ => 4096) (-5) 4100 15 (by norm_num)
    (by norm_num) (by decide) (by decide) (by decide) (by decide)

/-! ## C20: GC bits and the payload -/

/-- C20: for a word of 32 or 64 bits, every base table and every word `w`
with both GC bits clear, in word arithmetic `valPtr(w | MARK_MASK) =
valPtr(w) + 1` and `valPtr(w | FIRST_MASK) = valPtr(w) + 2`, so neither is
`valPtr(w)`; whereas `valInt(w | MARK_MASK) = valInt(w | FIRST_MASK) =
valInt(w)`. -/
theorem gc_bits_in_pointer_payload (W : Nat) (hW : W = 32 ∨ W = 64) (base : Nat → Nat)
    (w : Nat) (hm : is_marked w = 0) (hf : is_first w = 0) :
    valPtr W base (w ||| MARK_MASK) = (valPtr W base w + 1) % 2 ^ W ∧
    valPtr W base (w ||| FIRST_MASK) = (valPtr W base w + 2) % 2 ^ W ∧
    valPtr W base (w ||| MARK_MASK) ≠ valPtr W base w ∧
    valPtr W base (w ||| FIRST_MASK) ≠ valPtr W base w ∧
    valInt W (w ||| MARK_MASK) = valInt W w ∧
    valInt W (w ||| FIRST_MASK) = valInt W w := by
  rw [lor_MARK_MASK w hm, lor_FIRST_MASK w hf]
  have hs1 : storage (w + 32) = storage w := storage_eq_of_mod _ _ (by omega)
  have hs2 : storage (w + 64) = storage w := storage_eq_of_mod _ _ (by omega)
  rw [is_marked_eq] at hm
  rw [is_first_eq] at hf
  unfold valPtr valPtr2 valInt toLong
  rw [hs1, hs2, Nat.shiftRight_eq_div_pow, Nat.shiftRight_eq_div_pow,
    Nat.shiftRight_eq_div_pow, Int.shiftRight_eq_div_pow, Int.shiftRight_eq_div_pow,
    Int.shiftRight_eq_div_pow]
  generalize base (storage w) = b
  rcases hW with rfl | rfl
  · norm_num
    refine ⟨by omega, by omega, by omega, by omega, ?_, ?_⟩ <;> split_ifs <;> omega
  · norm_num
    refine ⟨by omega, by omega, by omega, by omega, ?_, ?_⟩ <;> split_ifs <;> omega

/-- Witness for C20: the 32-bit global reference 143 (offset 4 from a region
starting at address 4096). -/
theorem gc_bits_in_pointer_payload_witness :
    valPtr 32 (fun _ => 4096) (143 ||| MARK_MASK) = (valPtr 32 (fun _ => 4096) 143 + 1) % 2 ^ 32 ∧
    valPtr 32 (fun _ => 4096) (143 ||| FIRST_MASK) = (valPtr 32 (fun _ => 4096) 143 + 2) % 2 ^ 32 ∧
    valPtr 32 (fun _ => 4096) (143 ||| MARK_MASK) ≠ valPtr 32 (fun _ => 4096) 143 ∧
    valPtr 32 (fun _ => 4096) (143 ||| FIRST_MASK) ≠ valPtr 32 (fun _ => 4096) 143 ∧
    valInt 32 (143 ||| MARK_MASK) = valInt 32 143 ∧
    valInt 32 (143 ||| FIRST_MASK) = valInt 32 143 :=
  gc_bits_in_pointer_payload 32 (Or.inl rfl) (fun _ => 4096) 143 (by decide) (by decide)

end PlData
